import Mathlib

set_option maxRecDepth 40000

/-!
Verification of the mcp-nettools capturing TCP proxy engine.

The Go sources are shallowly embedded:
* the capture ring buffer (`RingBuffer` and its methods, from the buffer
  implementation file) as pure functions on an explicit buffer state;
* the protocol sniffer `detectProtocol` and the ASCII-run extractor
  `extractAsciiStrings` (proxy.go) as pure functions on byte lists
  (bytes are `Nat` values, ASCII string literals are converted with `ascii`);
* the proxy registry (`StartProxy` / `StopProxy`, proxy.go) as pure
  state-passing functions over an association list keyed by listen port;
  the OS bind attempt (`net.Listen`) is an external collaborator and is
  passed in as an `Except String Unit` oracle;
* the MCP tool handlers (tools.go) as pure functions from a dynamic
  argument value and a registry to an outcome (either a Go-level error,
  i.e. a transport failure, or a JSON-like result payload) and a new
  registry;
* the done-channel signalling of `copyWithCapture` (proxy.go) as a small
  interleaving model in which each Go channel operation (the readiness
  poll of `select` and `close`) is one atomic step.

Go `int` is modelled as `Int`; list/slice indices are `Nat`.  Partial
operations of Go (indexing a slice, dereferencing a packet pointer) are
totalised with `Option`; the totalising defaults are only ever exercised
outside the reachable states characterised by the well-formedness
predicate `RingBuffer.WF`.  `float64` arithmetic in the usage-percentage
computation is modelled exactly over `ℚ`.
-/

/-- One captured packet record (struct `CapturedPacket`).  The Go
`time.Time` timestamp is modelled as an abstract `Nat` tick; raw bytes are
a list of byte values. -/
structure CapturedPacket where
  timestamp : Nat
  direction : String
  bytes : Int
  hexDump : String
  asciiStrings : List String
  detectedProtocol : String
  rawData : List Nat
deriving DecidableEq

/-- The capture ring buffer state (struct `RingBuffer`).  `data` is the
backing slice of packet pointers (`none` is a nil slot); `maxSize` is the
byte budget and `currentSize` the running raw-byte total, both Go ints. -/
structure RingBuffer where
  data : List (Option CapturedPacket)
  maxSize : Int
  currentSize : Int
  head : Nat
  tail : Nat
  count : Nat
deriving DecidableEq

/-- `NewRingBuffer`: a non-positive requested budget is replaced by the
default 10 MiB; the backing slice is pre-allocated with 1000 nil slots. -/
def NewRingBuffer (maxSize : Int) : RingBuffer :=
  let m : Int := if maxSize ≤ 0 then 10 * 1024 * 1024 else maxSize
  { data := List.replicate 1000 none
    maxSize := m
    currentSize := 0
    head := 0
    tail := 0
    count := 0 }

/-- The eviction loop inside `RingBuffer.Add`: while the running total
would exceed the budget and at least one packet remains, drop the oldest
packet (at `tail`) and subtract its raw size. -/
def RingBuffer.evictOld (rb : RingBuffer) (packetSize : Int) : RingBuffer :=
  if h : rb.maxSize < rb.currentSize + packetSize ∧ 0 < rb.count then
    let oldSize : Int :=
      match rb.data[rb.tail]? with
      | some (some p) => (p.rawData.length : Int)
      | _ => 0
    RingBuffer.evictOld
      { rb with
        currentSize := rb.currentSize - oldSize
        tail := (rb.tail + 1) % rb.data.length
        count := rb.count - 1 } packetSize
  else rb
termination_by rb.count
decreasing_by omega

/-- `RingBuffer.grow`: double the backing slice, copying the retained
slots into the front in order and resetting `tail`/`head`. -/
def RingBuffer.grow (rb : RingBuffer) : RingBuffer :=
  let n := rb.data.length
  let ordered : List (Option CapturedPacket) :=
    if rb.tail < rb.head then (rb.data.drop rb.tail).take (rb.head - rb.tail)
    else if 0 < rb.count then rb.data.drop rb.tail ++ rb.data.take rb.head
    else []
  { rb with
    data := ordered.take (2 * n) ++
      List.replicate (2 * n - min (2 * n) ordered.length) none
    tail := 0
    head := rb.count }

/-- The final block of `RingBuffer.Add`: store the (possibly truncated)
packet at `head`, advance `head` around the ring and account its size. -/
def storeStep (rb2 : RingBuffer) (P : CapturedPacket) (S : Int) : RingBuffer :=
  { rb2 with
    data := rb2.data.set rb2.head (some P)
    head := (rb2.head + 1) % rb2.data.length
    count := rb2.count + 1
    currentSize := rb2.currentSize + S }

/-- `RingBuffer.Add`: truncate a single over-budget packet to the budget,
evict oldest packets until the new packet fits, grow the slice when every
slot is occupied, then store the packet at `head`. -/
def RingBuffer.Add (rb : RingBuffer) (packet : CapturedPacket) : RingBuffer :=
  let packetSize : Int := packet.rawData.length
  let pr : CapturedPacket × Int :=
    if rb.maxSize < packetSize
    then ({ packet with rawData := packet.rawData.take rb.maxSize.toNat }, rb.maxSize)
    else (packet, packetSize)
  let rb1 := rb.evictOld pr.2
  let rb2 := if rb1.count = rb1.data.length then rb1.grow else rb1
  storeStep rb2 pr.1 pr.2

/-- `RingBuffer.GetAll`: snapshot of the retained packets, oldest first.
The Go code allocates a result slice of length `count` and fills it with
one or two `copy` calls; unfilled entries stay nil. -/
def RingBuffer.GetAll (rb : RingBuffer) : List (Option CapturedPacket) :=
  if rb.count = 0 then []
  else
    let src : List (Option CapturedPacket) :=
      if rb.tail < rb.head then (rb.data.drop rb.tail).take (rb.head - rb.tail)
      else rb.data.drop rb.tail ++ rb.data.take rb.head
    src.take rb.count ++ List.replicate (rb.count - min rb.count src.length) none

/-- `RingBuffer.Clear`: reset the indices and usage and nil every slot. -/
def RingBuffer.Clear (rb : RingBuffer) : RingBuffer :=
  { rb with
    head := 0
    tail := 0
    count := 0
    currentSize := 0
    data := List.replicate rb.data.length none }

/-- `getUsagePercentLocked`: usage percentage, with the divide-by-zero
guard; the Go `float64` arithmetic is modelled exactly over `ℚ`. -/
def RingBuffer.getUsagePercentLocked (rb : RingBuffer) : ℚ :=
  if rb.maxSize = 0 then 0
  else (rb.currentSize : ℚ) * 100 / (rb.maxSize : ℚ)

/-- `GetUsagePercent` (the lock is the buffer's single mutual-exclusion
domain and is abstracted away by atomicity of each model operation). -/
def RingBuffer.GetUsagePercent (rb : RingBuffer) : ℚ :=
  rb.getUsagePercentLocked

/-- `GetStats`: (packet count, total captured bytes, usage percentage). -/
def RingBuffer.GetStats (rb : RingBuffer) : Nat × Int × ℚ :=
  (rb.count, rb.currentSize, rb.getUsagePercentLocked)

/-- Folding a sequence of `Add` calls over a buffer. -/
def RingBuffer.addAll (rb : RingBuffer) (ps : List CapturedPacket) : RingBuffer :=
  ps.foldl RingBuffer.Add rb

/-! ### Logical contents of a ring buffer -/

/-- The slot holding the `i`-th oldest retained packet. -/
def RingBuffer.slotAt (rb : RingBuffer) (i : Nat) : Option CapturedPacket :=
  (rb.data[(rb.tail + i) % rb.data.length]?).getD none

/-- Raw size of an optional packet (0 for a nil slot). -/
def optSize : Option CapturedPacket → Nat
  | some p => p.rawData.length
  | none => 0

/-- Total raw bytes of the retained slots, counted through the ring
indices. -/
def RingBuffer.usedBytes (rb : RingBuffer) : Nat :=
  ((List.range rb.count).map (fun i => optSize (rb.slotAt i))).sum

/-- Total raw bytes of the packets returned by `GetAll`. -/
def RingBuffer.bytesRetained (rb : RingBuffer) : Nat :=
  (rb.GetAll.map optSize).sum

/-- Executable well-formedness of a buffer state: the indices are in
range, `head` is `tail + count` around the ring, every retained slot is
occupied, `currentSize` is the exact raw-byte total of the retained
slots, the budget is positive, and the budget is respected. -/
def RingBuffer.wfb (rb : RingBuffer) : Bool :=
  decide (0 < rb.data.length) &&
  decide (rb.tail < rb.data.length) &&
  decide (rb.count ≤ rb.data.length) &&
  decide (rb.head = (rb.tail + rb.count) % rb.data.length) &&
  decide (0 < rb.maxSize) &&
  ((List.range rb.count).all fun i => (rb.slotAt i).isSome) &&
  decide (rb.currentSize = (rb.usedBytes : Int)) &&
  decide (rb.currentSize ≤ rb.maxSize)

/-- Well-formedness as a (decidable) proposition. -/
abbrev RingBuffer.WF (rb : RingBuffer) : Prop := rb.wfb = true

theorem RingBuffer.wf_iff (rb : RingBuffer) :
    rb.WF ↔ 0 < rb.data.length ∧ rb.tail < rb.data.length ∧
      rb.count ≤ rb.data.length ∧
      rb.head = (rb.tail + rb.count) % rb.data.length ∧
      0 < rb.maxSize ∧
      (∀ i < rb.count, (rb.slotAt i).isSome = true) ∧
      rb.currentSize = (rb.usedBytes : Int) ∧
      rb.currentSize ≤ rb.maxSize := by
  simp [RingBuffer.WF, RingBuffer.wfb, List.all_eq_true, List.mem_range,
    and_assoc]

/-! ### Protocol sniffer and ASCII-run extractor (proxy.go) -/

/-- Byte values of an ASCII string literal. -/
def ascii (s : String) : List Nat := s.data.map Char.toNat

/-- Occurrence of `pat` as a contiguous subsequence of `l` (the semantics
of Go `strings.Contains` on the byte string). -/
def containsSub (l pat : List Nat) : Bool :=
  (List.range (l.length + 1)).any fun i => pat.isPrefixOf (l.drop i)

/-- `detectProtocol` (proxy.go): first-match-wins classification of one
captured chunk. -/
def detectProtocol (data : List Nat) : String :=
  if (ascii "GET ").isPrefixOf data ∨ (ascii "POST ").isPrefixOf data ∨
     (ascii "PUT ").isPrefixOf data ∨ (ascii "DELETE ").isPrefixOf data ∨
     (ascii "HEAD ").isPrefixOf data ∨ (ascii "OPTIONS ").isPrefixOf data ∨
     (ascii "HTTP/1.").isPrefixOf data then "HTTP/1.x"
  else if (ascii "PRI * HTTP/2.0").isPrefixOf data then "HTTP/2"
  else if containsSub data (ascii "/grpc.") ∨ containsSub data (ascii ".proto.") then "gRPC"
  else if 5 < data.length ∧ data[0]? = some 0x16 ∧ data[1]? = some 0x03 then "TLS"
  else "Unknown"

/-- The HTTP/1.x request-line markers of rule 1 of the spec. -/
def httpMarkers : List (List Nat) :=
  [ascii "GET ", ascii "POST ", ascii "PUT ", ascii "DELETE ",
   ascii "HEAD ", ascii "OPTIONS ", ascii "HTTP/1."]

/-- Modelled from the spec wording of the five ordered sniffing rules
(first match wins), for comparison with `detectProtocol`. -/
def detectProtocolSpec (data : List Nat) : String :=
  if httpMarkers.any (fun p => p.isPrefixOf data) then "HTTP/1.x"
  else if (ascii "PRI * HTTP/2.0").isPrefixOf data then "HTTP/2"
  else if containsSub data (ascii "/grpc.") ∨ containsSub data (ascii ".proto.") then "gRPC"
  else if 5 < data.length ∧ data.take 2 = [0x16, 0x03] then "TLS"
  else "Unknown"

/-- Printable-ASCII test used by `extractAsciiStrings` (inclusive range
0x20 to 0x7E). -/
def printableByte (b : Nat) : Bool := 32 ≤ b && b ≤ 126

/-- Render a run of printable bytes as the Go `string(current)`. -/
def bytesToString (run : List Nat) : String :=
  String.mk (run.map Char.ofNat)

/-- The scanning loop of `extractAsciiStrings`: `current` is the run
being accumulated; a run is emitted when a non-printable byte or the end
of the chunk is reached and the run is longer than 4 bytes. -/
def extractLoop : List Nat → List Nat → List (List Nat)
  | current, [] => if 4 < current.length then [current] else []
  | current, b :: rest =>
    if printableByte b then extractLoop (current ++ [b]) rest
    else if 4 < current.length then current :: extractLoop [] rest
    else extractLoop [] rest

/-- `extractAsciiStrings` (proxy.go): collect the printable runs longer
than 4 bytes, keep at most the first 10, and render them as strings. -/
def extractAsciiStrings (data : List Nat) : List String :=
  ((extractLoop [] data).take 10).map bytesToString

/-- Modelled from the spec wording: split the chunk at the non-printable
bytes (`splitOnP` yields exactly the maximal printable runs, empty runs
included), keep the runs longer than 4 bytes, truncate to the first 10,
and render them as strings; for comparison with `extractAsciiStrings`. -/
def extractAsciiSpec (data : List Nat) : List String :=
  (((data.splitOnP fun b => !printableByte b).filter fun r => 4 < r.length).take 10).map
    bytesToString

/-! ### Proxy registry (proxy.go) -/

/-- One proxy instance (struct `ProxyInstance`), restricted to the fields
the registry operations read or write.  The listener, `Done` channel and
start timestamp are external resources whose closing is a side effect
outside the state modelled here. -/
structure ProxyInstanceM where
  listenPort : Int
  forwardHost : String
  forwardPort : Int
  buffer : RingBuffer
  statsBytesCaptured : Int
  statsConnections : Int
deriving DecidableEq

/-- The registry map `proxies map[int]*ProxyInstance`, as an association
list in insertion order.  All registry operations run under the single
`pm.mu` mutex, so each one is a single atomic step on this state. -/
abbrev Registry := List (Int × ProxyInstanceM)

/-- Lookup in the registry map. -/
def findProxy : Registry → Int → Option ProxyInstanceM
  | [], _ => none
  | (k, v) :: rest, p => if k = p then some v else findProxy rest p

/-- Deletion from the registry map (removes the entry for the key). -/
def eraseProxy : Registry → Int → Registry
  | [], _ => []
  | (k, v) :: rest, p => if k = p then rest else (k, v) :: eraseProxy rest p

/-- Errors of `StartProxy` (Go renders them via `fmt.Errorf`). -/
inductive StartErr where
  | alreadyRunning : Int → StartErr
  | bindError : Int → String → StartErr
deriving DecidableEq

/-- The Go error strings of `StartProxy`. -/
def StartErr.message : StartErr → String
  | .alreadyRunning port => "proxy already running on port " ++ toString port
  | .bindError port reason =>
      "failed to bind to port " ++ toString port ++ ": " ++ reason

/-- Error of `StopProxy`. -/
inductive StopErr where
  | notFound : Int → StopErr
deriving DecidableEq

/-- The Go error string of `StopProxy`. -/
def StopErr.message : StopErr → String
  | .notFound port => "no proxy running on port " ++ toString port

/-- `ProxyManager.StartProxy` (proxy.go): refuse a port that already has
an entry; otherwise attempt the OS bind (`net.Listen`, passed in as the
`bind` oracle) and on success register a fresh instance.  The returned
registry is the state after the call. -/
def StartProxy (pm : Registry) (listenPort : Int) (forwardHost : String)
    (forwardPort : Int) (captureLimit : Int) (bind : Except String Unit) :
    Except StartErr Unit × Registry :=
  match findProxy pm listenPort with
  | some _ => (.error (.alreadyRunning listenPort), pm)
  | none =>
    match bind with
    | .error reason => (.error (.bindError listenPort reason), pm)
    | .ok _ =>
      (.ok (),
        pm ++ [(listenPort,
          { listenPort := listenPort
            forwardHost := forwardHost
            forwardPort := forwardPort
            buffer := NewRingBuffer captureLimit
            statsBytesCaptured := 0
            statsConnections := 0 })])

/-- `ProxyManager.StopProxy` (proxy.go): fail on an unknown port;
otherwise read the final byte count and delete the entry (closing the
listener and Done channel are external side effects). -/
def StopProxy (pm : Registry) (listenPort : Int) :
    Except StopErr Int × Registry :=
  match findProxy pm listenPort with
  | none => (.error (.notFound listenPort), pm)
  | some proxy => (.ok proxy.statsBytesCaptured, eraseProxy pm listenPort)

/-! ### MCP tool handlers (tools.go) -/

/-- Dynamic argument values (`interface{}` entries of the argument map).
JSON numbers arrive as `float64`; the integral values the handlers accept
are modelled as `vint`. -/
inductive GoVal where
  | vint : Int → GoVal
  | vstr : String → GoVal
  | vbool : Bool → GoVal
  | vnull : GoVal
deriving DecidableEq

/-- The `request.Params.Arguments` value: either a `map[string]interface{}`
or some other dynamic value (on which the Go type assertion fails). -/
inductive GoArgs where
  | amap : List (String × GoVal) → GoArgs
  | anon : GoArgs
deriving DecidableEq

/-- Association-list lookup in an argument map. -/
def lookupArg : List (String × GoVal) → String → Option GoVal
  | [], _ => none
  | (k, v) :: rest, key => if k = key then some v else lookupArg rest key

/-- `getInt` (tools.go): comma-ok extraction of a numeric argument. -/
def goGetInt (args : List (String × GoVal)) (key : String) : Int × Bool :=
  match lookupArg args key with
  | some (.vint n) => (n, true)
  | _ => (0, false)

/-- `getString` (tools.go): comma-ok extraction of a string argument. -/
def goGetString (args : List (String × GoVal)) (key : String) : String × Bool :=
  match lookupArg args key with
  | some (.vstr s) => (s, true)
  | _ => ("", false)

/-- JSON-like values of a tool result payload.  `pnum` carries the exact
rational behind the `%.1f%%` usage rendering; timestamps are carried as
their abstract tick. -/
inductive PVal where
  | ps : String → PVal
  | pi : Int → PVal
  | pnum : ℚ → PVal
  | plist : List PVal → PVal
  | pobj : List (String × PVal) → PVal

/-- Outcome of a tool handler: either a transport-level failure (the
handler returns a non-nil Go `error` and no result) or a successful
result payload (nil Go error). -/
inductive ToolOutcome where
  | transportError : String → ToolOutcome
  | payload : List (String × PVal) → ToolOutcome

/-- `StartProxyHandler.Execute` (tools.go).  Engine errors become an
`error`-only payload; malformed arguments become transport errors. -/
def StartProxyHandlerExec (pm : Registry) (args : GoArgs)
    (bind : Except String Unit) : ToolOutcome × Registry :=
  match args with
  | .anon => (.transportError "invalid arguments format", pm)
  | .amap m =>
    let lp := goGetInt m "listen_port"
    if lp.2 then
      let fh := goGetString m "forward_host"
      let forwardHost := if fh.1 = "" then "localhost" else fh.1
      let fp := goGetInt m "forward_port"
      if fp.2 then
        let cl := goGetInt m "capture_limit"
        let captureLimit : Int := if cl.1 ≤ 0 then 10 * 1024 * 1024 else cl.1
        match StartProxy pm lp.1 forwardHost fp.1 captureLimit bind with
        | (.error e, pm1) => (.payload [("error", .ps e.message)], pm1)
        | (.ok _, pm1) =>
          (.payload [("status", .ps "started"), ("listen_port", .pi lp.1),
            ("forward_to", .ps (forwardHost ++ ":" ++ toString fp.1))], pm1)
      else (.transportError "forward_port is required", pm)
    else (.transportError "listen_port is required", pm)

/-- `StopProxyHandler.Execute` (tools.go). -/
def StopProxyHandlerExec (pm : Registry) (args : GoArgs) :
    ToolOutcome × Registry :=
  match args with
  | .anon => (.transportError "invalid arguments format", pm)
  | .amap m =>
    let lp := goGetInt m "listen_port"
    if lp.2 then
      match StopProxy pm lp.1 with
      | (.error e, pm1) => (.payload [("error", .ps e.message)], pm1)
      | (.ok bytesCaptured, pm1) =>
        (.payload [("status", .ps "stopped"), ("listen_port", .pi lp.1),
          ("bytes_captured", .pi bytesCaptured)], pm1)
    else (.transportError "listen_port is required", pm)

/-- The per-proxy result object built by `GetProxyOutputHandler.Execute`. -/
def proxyResultObj (v : ProxyInstanceM) : PVal :=
  let captureData := v.buffer.GetAll.map fun oc =>
    match oc with
    | some c =>
      PVal.pobj [("timestamp", .pi c.timestamp), ("direction", .ps c.direction),
        ("bytes", .pi c.bytes), ("hex_dump", .ps c.hexDump),
        ("ascii_strings", .plist (c.asciiStrings.map PVal.ps)),
        ("detected_protocol", .ps c.detectedProtocol)]
    | none => PVal.pobj []
  PVal.pobj [("listen_port", .pi v.listenPort),
    ("forward_to", .ps (v.forwardHost ++ ":" ++ toString v.forwardPort)),
    ("captures", .plist captureData),
    ("total_bytes_captured", .pi v.statsBytesCaptured),
    ("buffer_usage", .pnum v.buffer.GetStats.2.2),
    ("buffer_bytes", .pi v.buffer.GetStats.2.1)]

/-- Clear the buffer of one instance (`proxy.Buffer.Clear()`). -/
def clearInst (v : ProxyInstanceM) : ProxyInstanceM :=
  { v with buffer := v.buffer.Clear }

/-- `GetProxyOutputHandler.Execute` (tools.go).  A non-map argument
container is replaced by an empty argument map; an unknown requested port
becomes an `error`-only payload; on success the listed proxies are
reported and, unless `clear_buffer` is `false`, their buffers cleared.
The all-proxies iteration follows registration order (the Go map order is
unspecified). -/
def GetProxyOutputHandlerExec (pm : Registry) (args : GoArgs) :
    ToolOutcome × Registry :=
  let m := match args with
    | .amap m => m
    | .anon => []
  let lp := goGetInt m "listen_port"
  let clearBuffer := match lookupArg m "clear_buffer" with
    | some (.vbool b) => b
    | _ => true
  if lp.2 then
    match findProxy pm lp.1 with
    | none =>
      (.payload [("error", .ps ("no proxy running on port " ++ toString lp.1))], pm)
    | some proxy =>
      (.payload [("proxies", .plist [proxyResultObj proxy])],
        if clearBuffer then
          pm.map fun kv => if kv.1 = lp.1 then (kv.1, clearInst kv.2) else kv
        else pm)
  else
    (.payload [("proxies", .plist (pm.map fun kv => proxyResultObj kv.2))],
      if clearBuffer then pm.map (fun kv => (kv.1, clearInst kv.2)) else pm)

/-! ### Done-channel signalling of the connection relay (proxy.go) -/

/-- Program counter of one directional relay at its terminal
close-`done` sequence: `select { case <-done: default: close(done) }`.
The readiness poll of the `select` and the `close` call are distinct
atomic steps, as in the Go runtime. -/
inductive RelayPc where
  | start
  | sawOpen
  | sawClosed
  | finished
deriving DecidableEq

/-- The per-connection-pair `done` channel.  `closeCount` counts `close`
calls: a second `close` of the same channel panics in Go. -/
structure DoneChannel where
  closed : Bool
  closeCount : Nat
deriving DecidableEq

/-- The two directional relays of one connection and their shared `done`
channel. -/
structure RelayPair where
  done : DoneChannel
  pc1 : RelayPc
  pc2 : RelayPc
deriving DecidableEq

/-- One atomic step of the chosen relay (`first` selects the relay):
poll the channel, then close it only if the poll saw it open. -/
def relayStep (s : RelayPair) (first : Bool) : RelayPair :=
  let pc := if first then s.pc1 else s.pc2
  let next : RelayPc × DoneChannel :=
    match pc with
    | .start => (if s.done.closed then .sawClosed else .sawOpen, s.done)
    | .sawOpen => (.finished, { closed := true, closeCount := s.done.closeCount + 1 })
    | .sawClosed => (.finished, s.done)
    | .finished => (.finished, s.done)
  if first then { s with pc1 := next.1, done := next.2 }
  else { s with pc2 := next.1, done := next.2 }

/-- Run a schedule (list of relay choices) from a state. -/
def relayRun (s : RelayPair) (sched : List Bool) : RelayPair :=
  sched.foldl relayStep s

/-- Both relays at their terminal sequence, channel open, never closed. -/
def relayInit : RelayPair :=
  { done := { closed := false, closeCount := 0 }, pc1 := .start, pc2 := .start }

/-! ## Theorems -/

/-- Claim C4: `detectProtocol` implements exactly the five ordered
first-match-wins rules of the spec, and in particular a chunk starting
with the TLS record bytes 0x16 0x03 that contains "/grpc." is classified
by the earlier gRPC rule, not as TLS. -/
theorem detectProtocol_follows_spec_rules :
    (∀ data : List Nat, detectProtocol data = detectProtocolSpec data) ∧
    detectProtocol (0x16 :: 0x03 :: ascii "/grpc.") = "gRPC" := by
  constructor
  · intro data
    have h1 : (httpMarkers.any fun p => p.isPrefixOf data) = true ↔
        ((ascii "GET ").isPrefixOf data = true ∨
         (ascii "POST ").isPrefixOf data = true ∨
         (ascii "PUT ").isPrefixOf data = true ∨
         (ascii "DELETE ").isPrefixOf data = true ∨
         (ascii "HEAD ").isPrefixOf data = true ∨
         (ascii "OPTIONS ").isPrefixOf data = true ∨
         (ascii "HTTP/1.").isPrefixOf data = true) := by
      simp [httpMarkers]
    have h4 : (5 < data.length ∧ data.take 2 = [0x16, 0x03]) ↔
        (5 < data.length ∧ data[0]? = some 0x16 ∧ data[1]? = some 0x03) := by
      rcases data with _ | ⟨a, _ | ⟨b, rest⟩⟩ <;>
        simp [List.take_succ_cons, and_assoc]
    simp only [detectProtocolSpec, detectProtocol, h1, h4]
  · decide

theorem modifyHead_nil_append (l : List (List Nat)) :
    (l.modifyHead fun r => [] ++ r) = l := by
  cases l <;> simp

theorem extractLoop_eq_splitOnP (data : List Nat) : ∀ current : List Nat,
    extractLoop current data =
      ((data.splitOnP fun b => !printableByte b).modifyHead fun r => current ++ r).filter
        fun r => 4 < r.length := by
  induction data with
  | nil =>
    intro current
    by_cases h : 4 < current.length <;>
      simp [extractLoop, List.splitOnP_nil, List.filter, h]
  | cons b rest ih =>
    intro current
    by_cases hb : printableByte b
    · have hcomp : ((fun r => current ++ r) ∘ List.cons b) =
          fun r => (current ++ [b]) ++ r := by
        funext r
        simp
      rw [show extractLoop current (b :: rest) = extractLoop (current ++ [b]) rest by
        simp [extractLoop, hb]]
      rw [ih (current ++ [b]), List.splitOnP_cons, hb, Bool.not_true,
        if_neg (by simp), List.modifyHead_modifyHead, hcomp]
    · have hnb : (!printableByte b) = true := by simp [hb]
      have hE : extractLoop [] rest =
          (rest.splitOnP fun b => !printableByte b).filter fun r => 4 < r.length := by
        rw [ih [], modifyHead_nil_append]
      rw [show extractLoop current (b :: rest) =
          if 4 < current.length then current :: extractLoop [] rest
          else extractLoop [] rest by simp [extractLoop, hb]]
      rw [hE, List.splitOnP_cons, hnb, if_pos rfl, List.modifyHead_cons,
        List.append_nil, List.filter_cons]
      by_cases hc : 4 < current.length
      · rw [if_pos hc, if_pos (by simpa using hc)]
      · rw [if_neg hc, if_neg (by simpa using hc)]

/-- Claim C5: `extractAsciiStrings` returns exactly the left-to-right
maximal runs of printable ASCII bytes (0x20 to 0x7E) of length greater
than 4, truncated to the first 10 such runs; and the spec example
evaluates as stated. -/
theorem extractAsciiStrings_follows_spec :
    (∀ data : List Nat, extractAsciiStrings data = extractAsciiSpec data) ∧
    extractAsciiStrings (ascii "AAAAA" ++ [0] ++ ascii "BBBBB" ++ [1] ++ ascii "C") =
      ["AAAAA", "BBBBB"] := by
  constructor
  · intro data
    rw [extractAsciiStrings, extractAsciiSpec, extractLoop_eq_splitOnP,
      modifyHead_nil_append]
  · decide

/-- Claim C3: the done-channel signalling of `copyWithCapture`.  When the
two relays reach their terminal close sequences one after the other, the
channel is closed exactly once; but the poll (`select` readiness check)
and the `close` are separate atomic steps, so the interleaving in which
both relays poll before either closes performs two `close` calls — in Go
the second one panics, so the single-use primitive is not protected
against double signalling as the claim states. -/
theorem relay_done_double_close :
    (relayRun relayInit [true, true, false, false]).done.closeCount = 1 ∧
    (relayRun relayInit [true, false, true, false]).done.closeCount = 2 := by
  decide

theorem findProxy_eq_none_iff (pm : Registry) (port : Int) :
    findProxy pm port = none ↔ port ∉ pm.map Prod.fst := by
  induction pm with
  | nil => simp [findProxy]
  | cons kv rest ih =>
    by_cases h : kv.1 = port
    · simp [findProxy, h]
    · simp only [findProxy]
      rw [if_neg (by simpa using h)]
      simp [ih, Ne.symm h]

theorem eraseProxy_length (pm : Registry) (port : Int) (inst : ProxyInstanceM)
    (h : findProxy pm port = some inst) :
    (eraseProxy pm port).length + 1 = pm.length := by
  induction pm with
  | nil => simp [findProxy] at h
  | cons kv rest ih =>
    by_cases hk : kv.1 = port
    · simp [eraseProxy, hk]
    · rw [findProxy] at h
      rw [if_neg (by simpa using hk)] at h
      simp [eraseProxy, hk, ih h]

theorem findProxy_eraseProxy_self (pm : Registry) (port : Int)
    (hnd : (pm.map Prod.fst).Nodup) :
    findProxy (eraseProxy pm port) port = none := by
  induction pm with
  | nil => simp [eraseProxy, findProxy]
  | cons kv rest ih =>
    simp only [List.map_cons, List.nodup_cons] at hnd
    by_cases hk : kv.1 = port
    · rw [eraseProxy, if_pos hk, findProxy_eq_none_iff]
      rw [hk] at hnd
      exact hnd.1
    · rw [eraseProxy, if_neg hk, findProxy, if_neg hk]
      exact ih hnd.2

theorem findProxy_eraseProxy_other (pm : Registry) (port q : Int) (hq : q ≠ port) :
    findProxy (eraseProxy pm port) q = findProxy pm q := by
  induction pm with
  | nil => simp [eraseProxy]
  | cons kv rest ih =>
    by_cases hk : kv.1 = port
    · rw [eraseProxy, if_pos hk, findProxy, if_neg (by rw [hk]; exact fun h => hq h.symm)]
    · rw [eraseProxy, if_neg hk, findProxy, findProxy]
      by_cases hkq : kv.1 = q
      · rw [if_pos hkq, if_pos hkq]
      · rw [if_neg hkq, if_neg hkq, ih]

/-- Claim C6: `StartProxy` fails with AlreadyRunning exactly when the
registry holds an entry for the port, leaving the registry untouched;
with no entry and a failing bind it fails with BindError carrying the OS
reason and inserts nothing; otherwise it registers exactly one new
instance under that port; and it preserves distinctness of the port keys
(all registry operations run under the single `pm.mu` mutex, so
concurrent Start calls are serialised into such atomic steps). -/
theorem StartProxy_cases (pm : Registry) (port : Int) (host : String)
    (fport climit : Int) (bind : Except String Unit) :
    ((∃ inst, findProxy pm port = some inst) →
      StartProxy pm port host fport climit bind =
        (.error (.alreadyRunning port), pm)) ∧
    (findProxy pm port = none → ∀ reason : String,
      StartProxy pm port host fport climit (.error reason) =
        (.error (.bindError port reason), pm)) ∧
    (findProxy pm port = none →
      StartProxy pm port host fport climit (.ok ()) =
        (.ok (), pm ++ [(port,
          { listenPort := port
            forwardHost := host
            forwardPort := fport
            buffer := NewRingBuffer climit
            statsBytesCaptured := 0
            statsConnections := 0 })])) ∧
    ((pm.map Prod.fst).Nodup →
      (((StartProxy pm port host fport climit bind).2.map Prod.fst)).Nodup) := by
  refine ⟨?_, ?_, ?_, ?_⟩
  · rintro ⟨inst, h⟩
    rw [StartProxy.eq_def, h]
  · intro h reason
    rw [StartProxy.eq_def, h]
  · intro h
    rw [StartProxy.eq_def, h]
  · intro hnd
    rcases h : findProxy pm port with _ | inst
    · rcases bind with reason | u
      · rw [StartProxy.eq_def, h]
        exact hnd
      · rw [StartProxy.eq_def, h]
        simp only [List.map_append, List.map_cons, List.map_nil]
        rw [List.nodup_append]
        refine ⟨hnd, by simp, ?_⟩
        intro a ha hb
        simp only [List.mem_singleton] at hb
        rw [hb] at ha
        exact (findProxy_eq_none_iff pm port).mp h ha
    · rw [StartProxy.eq_def, h]
      exact hnd

/-- Claim C7: `StopProxy` on an unregistered port fails with NotFound and
leaves the registry unchanged; on a registered port (port keys are
distinct in every reachable registry) it returns that instance's final
captured byte count and removes exactly that entry: the port no longer
resolves, every other port resolves as before, and the length drops by
one. -/
theorem StopProxy_cases (pm : Registry) (port : Int) :
    (findProxy pm port = none →
      StopProxy pm port = (.error (.notFound port), pm)) ∧
    (∀ inst, findProxy pm port = some inst →
      StopProxy pm port = (.ok inst.statsBytesCaptured, eraseProxy pm port) ∧
      (eraseProxy pm port).length + 1 = pm.length ∧
      ((pm.map Prod.fst).Nodup →
        findProxy (eraseProxy pm port) port = none) ∧
      (∀ q : Int, q ≠ port →
        findProxy (eraseProxy pm port) q = findProxy pm q)) := by
  refine ⟨?_, ?_⟩
  · intro h
    rw [StopProxy.eq_def, h]
  · intro inst h
    refine ⟨by rw [StopProxy.eq_def, h], eraseProxy_length pm port inst h, ?_, ?_⟩
    · intro hnd
      exact findProxy_eraseProxy_self pm port hnd
    · intro q hq
      exact findProxy_eraseProxy_other pm port q hq

/-- Counterexample for claim C9: invoking `get_proxy_output` with a
non-map argument container (a malformed argument set per the claim) does
not produce a transport-level failure — the handler substitutes an empty
argument map and returns a successful `proxies` payload with a nil Go
error. -/
theorem getOutput_nonmap_is_not_transport_failure :
    (GetProxyOutputHandlerExec [] GoArgs.anon).1 =
      ToolOutcome.payload [("proxies", PVal.plist [])] ∧
    (GetProxyOutputHandlerExec [] GoArgs.anon).1 ≠
      ToolOutcome.transportError "invalid arguments format" := by
  constructor
  · rfl
  · intro h
    exact ToolOutcome.noConfusion (by rw [← h]; rfl : ToolOutcome.transportError
      "invalid arguments format" = ToolOutcome.payload [("proxies", PVal.plist [])])

/-- Claim C9 (amended): engine errors (AlreadyRunning, BindError,
NotFound) from the start, stop and get_output handlers are returned as
successful tool results whose payload contains only an `error` message
string, with a nil Go error; for start and stop, a non-map argument
container or an unusable required `listen_port`/`forward_port` argument
is a transport-level failure (non-nil Go error, no payload); get_output,
however, treats a non-map argument container as an empty argument set
and never fails at transport level. -/
theorem toolHandler_error_channels (pm : Registry) (bind : Except String Unit) :
    (StartProxyHandlerExec pm .anon bind =
      (.transportError "invalid arguments format", pm)) ∧
    (StopProxyHandlerExec pm .anon =
      (.transportError "invalid arguments format", pm)) ∧
    (∀ m, (goGetInt m "listen_port").2 = false →
      StartProxyHandlerExec pm (.amap m) bind =
        (.transportError "listen_port is required", pm) ∧
      StopProxyHandlerExec pm (.amap m) =
        (.transportError "listen_port is required", pm)) ∧
    (∀ m, (goGetInt m "listen_port").2 = true →
      (goGetInt m "forward_port").2 = false →
      StartProxyHandlerExec pm (.amap m) bind =
        (.transportError "forward_port is required", pm)) ∧
    (∀ m inst, (goGetInt m "listen_port").2 = true →
      (goGetInt m "forward_port").2 = true →
      findProxy pm (goGetInt m "listen_port").1 = some inst →
      StartProxyHandlerExec pm (.amap m) bind =
        (.payload [("error", .ps ("proxy already running on port " ++
          toString (goGetInt m "listen_port").1))], pm)) ∧
    (∀ m reason, (goGetInt m "listen_port").2 = true →
      (goGetInt m "forward_port").2 = true →
      findProxy pm (goGetInt m "listen_port").1 = none →
      StartProxyHandlerExec pm (.amap m) (.error reason) =
        (.payload [("error", .ps ("failed to bind to port " ++
          toString (goGetInt m "listen_port").1 ++ ": " ++ reason))], pm)) ∧
    (∀ m, (goGetInt m "listen_port").2 = true →
      findProxy pm (goGetInt m "listen_port").1 = none →
      StopProxyHandlerExec pm (.amap m) =
        (.payload [("error", .ps ("no proxy running on port " ++
          toString (goGetInt m "listen_port").1))], pm)) ∧
    (∀ m, (goGetInt m "listen_port").2 = true →
      findProxy pm (goGetInt m "listen_port").1 = none →
      GetProxyOutputHandlerExec pm (.amap m) =
        (.payload [("error", .ps ("no proxy running on port " ++
          toString (goGetInt m "listen_port").1))], pm)) ∧
    (GetProxyOutputHandlerExec pm .anon = GetProxyOutputHandlerExec pm (.amap [])) ∧
    (∀ args msg, (GetProxyOutputHandlerExec pm args).1 ≠ .transportError msg) := by
  refine ⟨rfl, rfl, ?_, ?_, ?_, ?_, ?_, ?_, rfl, ?_⟩
  · intro m h
    constructor
    · rw [StartProxyHandlerExec]
      rw [if_neg (by simp [h])]
    · rw [StopProxyHandlerExec]
      rw [if_neg (by simp [h])]
  · intro m h1 h2
    rw [StartProxyHandlerExec, if_pos h1, if_neg (by simp [h2])]
  · intro m inst h1 h2 hf
    rw [StartProxyHandlerExec, if_pos h1, if_pos h2]
    simp only [StartProxy.eq_def, hf, StartErr.message]
  · intro m reason h1 h2 hf
    rw [StartProxyHandlerExec, if_pos h1, if_pos h2]
    simp only [StartProxy.eq_def, hf, StartErr.message]
  · intro m h1 hf
    rw [StopProxyHandlerExec, if_pos h1]
    simp only [StopProxy.eq_def, hf, StopErr.message]
  · intro m h1 hf
    rw [GetProxyOutputHandlerExec, if_pos h1, hf]
  · intro args msg
    rcases args with m | _
    · rw [GetProxyOutputHandlerExec]
      by_cases h1 : (goGetInt m "listen_port").2
      · rw [if_pos h1]
        rcases hf : findProxy pm (goGetInt m "listen_port").1 with _ | inst <;> simp
      · rw [if_neg h1]
        simp
    · rw [GetProxyOutputHandlerExec]
      rw [show (goGetInt [] "listen_port").2 = false from rfl]
      simp

/-- Claim C10: `NewRingBuffer` substitutes the default budget 10485760
for every non-positive requested limit, so every buffer has a strictly
positive budget; and the start handler applies the same substitution for
any `capture_limit` argument whose extracted value is non-positive (a
missing or non-numeric argument extracts as 0), not only when the
argument is omitted, so the registered instance carries the default
budget. -/
theorem captureLimit_default_substitution :
    (∀ limit : Int, limit ≤ 0 → (NewRingBuffer limit).maxSize = 10485760) ∧
    (∀ limit : Int, 0 < (NewRingBuffer limit).maxSize) ∧
    (∀ (pm : Registry) (m : List (String × GoVal)),
      (goGetInt m "listen_port").2 = true →
      (goGetInt m "forward_port").2 = true →
      (goGetInt m "capture_limit").1 ≤ 0 →
      findProxy pm (goGetInt m "listen_port").1 = none →
      StartProxyHandlerExec pm (.amap m) (.ok ()) =
        (.payload [("status", .ps "started"),
          ("listen_port", .pi (goGetInt m "listen_port").1),
          ("forward_to", .ps ((if (goGetString m "forward_host").1 = ""
            then "localhost" else (goGetString m "forward_host").1) ++ ":" ++
            toString (goGetInt m "forward_port").1))],
          pm ++ [((goGetInt m "listen_port").1,
            { listenPort := (goGetInt m "listen_port").1
              forwardHost := if (goGetString m "forward_host").1 = ""
                then "localhost" else (goGetString m "forward_host").1
              forwardPort := (goGetInt m "forward_port").1
              buffer := NewRingBuffer 10485760
              statsBytesCaptured := 0
              statsConnections := 0 })]) ∧
      (NewRingBuffer 10485760).maxSize = 10485760) := by
  refine ⟨?_, ?_, ?_⟩
  · intro limit h
    rw [NewRingBuffer]
    simp only [if_pos h]
    norm_num
  · intro limit
    rw [NewRingBuffer]
    by_cases h : limit ≤ 0
    · simp only [if_pos h]
      norm_num
    · simp only [if_neg h]
      omega
  · intro pm m h1 h2 hcl hf
    constructor
    · rw [StartProxyHandlerExec, if_pos h1, if_pos h2]
      simp only [if_pos hcl, StartProxy.eq_def, hf]
      norm_num
    · rfl

theorem getElem?_drop_add (l : List (Option CapturedPacket)) :
    ∀ (n i : Nat), (l.drop n)[i]? = l[n + i]? := by
  induction l with
  | nil => intro n i; simp
  | cons a t ih =>
    intro n i
    cases n with
    | zero => simp
    | succ n =>
      rw [List.drop_succ_cons, ih n i]
      rw [show n.succ + i = (n + i) + 1 by omega, List.getElem?_cons_succ]

theorem slotAt_of_lt (rb : RingBuffer) (i : Nat) (h : rb.tail + i < rb.data.length) :
    rb.slotAt i = (rb.data[rb.tail + i]?).getD none := by
  rw [RingBuffer.slotAt, Nat.mod_eq_of_lt h]

theorem usedBytes_zero (rb : RingBuffer) (h : rb.count = 0) : rb.usedBytes = 0 := by
  rw [RingBuffer.usedBytes, h]
  rfl

theorem evictOld_spec (n : Nat) : ∀ (rb : RingBuffer) (s : Int),
    rb.count ≤ n →
    0 < rb.data.length → rb.tail < rb.data.length → rb.count ≤ rb.data.length →
    (∀ i, i < rb.count → (rb.slotAt i).isSome = true) →
    rb.currentSize = (rb.usedBytes : Int) →
    ∃ k, k ≤ rb.count ∧
      (rb.evictOld s).data = rb.data ∧
      (rb.evictOld s).head = rb.head ∧
      (rb.evictOld s).maxSize = rb.maxSize ∧
      (rb.evictOld s).count = rb.count - k ∧
      (rb.evictOld s).tail = (rb.tail + k) % rb.data.length ∧
      (∀ i, (rb.evictOld s).slotAt i = rb.slotAt (k + i)) ∧
      (rb.evictOld s).currentSize = ((rb.evictOld s).usedBytes : Int) ∧
      ¬((rb.evictOld s).maxSize < (rb.evictOld s).currentSize + s ∧
        0 < (rb.evictOld s).count) := by
  induction n with
  | zero =>
    intro rb s hn h0 ht hcl hslots hsize
    have hstop : rb.evictOld s = rb := by
      rw [RingBuffer.evictOld]
      exact dif_neg (by omega)
    rw [hstop]
    exact ⟨0, Nat.zero_le _, rfl, rfl, rfl, by omega,
      by rw [Nat.add_zero, Nat.mod_eq_of_lt ht],
      fun i => by rw [Nat.zero_add], hsize, by omega⟩
  | succ n ih =>
    intro rb s hn h0 ht hcl hslots hsize
    by_cases hc : rb.maxSize < rb.currentSize + s ∧ 0 < rb.count
    · have hstep : rb.evictOld s = RingBuffer.evictOld
          { rb with
            currentSize := rb.currentSize -
              (match rb.data[rb.tail]? with
                | some (some p) => (p.rawData.length : Int)
                | _ => 0)
            tail := (rb.tail + 1) % rb.data.length
            count := rb.count - 1 } s := by
        conv_lhs => rw [RingBuffer.evictOld]
        rw [dif_pos hc]
      have hold : (match rb.data[rb.tail]? with
          | some (some p) => ((p.rawData.length : Nat) : Int)
          | _ => 0) = (optSize (rb.slotAt 0) : Int) := by
        have h00 : rb.slotAt 0 = (rb.data[rb.tail]?).getD none := by
          rw [slotAt_of_lt rb 0 (by omega), Nat.add_zero]
        rcases hx : rb.data[rb.tail]? with _ | op
        · rw [h00, hx]
          rfl
        · rcases op with _ | p
          · rw [h00, hx]
            rfl
          · rw [h00, hx]
            rfl
      rw [hstep]
      set rb1 : RingBuffer :=
        { rb with
          currentSize := rb.currentSize -
            (match rb.data[rb.tail]? with
              | some (some p) => ((p.rawData.length : Nat) : Int)
              | _ => 0)
          tail := (rb.tail + 1) % rb.data.length
          count := rb.count - 1 } with hrb1
      have hshift : ∀ i, rb1.slotAt i = rb.slotAt (1 + i) := by
        intro i
        rw [RingBuffer.slotAt, RingBuffer.slotAt]
        rw [show ((rb.tail + 1) % rb.data.length + i) % rb.data.length =
          (rb.tail + (1 + i)) % rb.data.length from by
            rw [Nat.mod_add_mod]
            congr 1
            omega]
      have hsum : rb.usedBytes = optSize (rb.slotAt 0) + rb1.usedBytes := by
        rw [RingBuffer.usedBytes, RingBuffer.usedBytes]
        rw [show rb.count = (rb.count - 1) + 1 from by omega,
          List.range_succ_eq_map]
        rw [List.map_cons, List.sum_cons, List.map_map]
        have hfe : ((fun i => optSize (rb.slotAt i)) ∘ Nat.succ) =
            fun i => optSize (rb1.slotAt i) := by
          funext i
          rw [Function.comp_apply, hshift i,
            show (1 : Nat) + i = Nat.succ i from by omega]
        rw [hfe]
      have hcs : rb1.currentSize = rb.currentSize - (optSize (rb.slotAt 0) : Int) := by
        rw [show rb1.currentSize = rb.currentSize -
          (match rb.data[rb.tail]? with
            | some (some p) => ((p.rawData.length : Nat) : Int)
            | _ => 0) from rfl, hold]
      obtain ⟨k1, hk1, hdata2, hhead2, hmax2, hcount2, htail2, hslots2, hsize2, hpost2⟩ :=
        ih rb1 s (by show rb.count - 1 ≤ n; omega) h0 (Nat.mod_lt _ h0)
          (by show rb.count - 1 ≤ rb.data.length; omega)
          (by
            intro i hi
            have hi2 : i < rb.count - 1 := hi
            rw [hshift i]
            exact hslots (1 + i) (by omega))
          (by
            rw [hcs, hsize, hsum]
            push_cast
            ring)
      have hk1b : k1 ≤ rb.count - 1 := hk1
      refine ⟨k1 + 1, by omega, ?_, ?_, ?_, ?_, ?_, ?_, ?_, ?_⟩
      · rw [hdata2]
      · rw [hhead2]
      · rw [hmax2]
      · rw [hcount2]
        show rb.count - 1 - k1 = rb.count - (k1 + 1)
        omega
      · rw [htail2]
        show ((rb.tail + 1) % rb.data.length + k1) % rb.data.length = _
        rw [Nat.mod_add_mod]
        congr 1
        omega
      · intro i
        rw [hslots2 i, hshift (k1 + i)]
        congr 1
        omega
      · exact hsize2
      · exact hpost2
    · have hstop : rb.evictOld s = rb := by
        rw [RingBuffer.evictOld]
        exact dif_neg hc
      rw [hstop]
      exact ⟨0, Nat.zero_le _, rfl, rfl, rfl, by omega,
        by rw [Nat.add_zero, Nat.mod_eq_of_lt ht],
        fun i => by rw [Nat.zero_add], hsize, hc⟩

theorem grow_spec (rb : RingBuffer) (h0 : 0 < rb.data.length)
    (ht : rb.tail < rb.data.length) (hfull : rb.count = rb.data.length)
    (hheadEq : rb.head = (rb.tail + rb.count) % rb.data.length) :
    rb.grow.data.length = 2 * rb.data.length ∧
    rb.grow.tail = 0 ∧ rb.grow.head = rb.count ∧ rb.grow.count = rb.count ∧
    rb.grow.maxSize = rb.maxSize ∧ rb.grow.currentSize = rb.currentSize ∧
    ∀ i, i < rb.count → rb.grow.slotAt i = rb.slotAt i := by
  have hht : rb.head = rb.tail := by
    rw [hheadEq, hfull, Nat.add_mod_right, Nat.mod_eq_of_lt ht]
  have hho : ¬ rb.tail < rb.head := by omega
  have hlenord : (rb.data.drop rb.tail ++ rb.data.take rb.head).length =
      rb.data.length := by
    rw [List.length_append, List.length_drop, List.length_take, hht]
    omega
  have hgd : rb.grow = { rb with
      data := rb.data.drop rb.tail ++ rb.data.take rb.head ++
        List.replicate rb.data.length none
      tail := 0
      head := rb.count } := by
    rw [RingBuffer.grow]
    rw [if_neg hho, if_pos (by omega)]
    rw [List.take_all_of_le (by rw [hlenord]; omega)]
    rw [show min (2 * rb.data.length)
        (rb.data.drop rb.tail ++ rb.data.take rb.head).length = rb.data.length from by
      rw [hlenord]
      omega]
    rw [show 2 * rb.data.length - rb.data.length = rb.data.length from by omega]
  have hdlen : rb.grow.data.length = 2 * rb.data.length := by
    rw [hgd]
    show (rb.data.drop rb.tail ++ rb.data.take rb.head ++
      List.replicate rb.data.length none).length = _
    rw [List.length_append, hlenord, List.length_replicate]
    omega
  refine ⟨hdlen, by rw [hgd], by rw [hgd], by rw [hgd], by rw [hgd], by rw [hgd], ?_⟩
  intro i hi
  have hi2 : i < rb.data.length := by omega
  rw [RingBuffer.slotAt, RingBuffer.slotAt, hdlen]
  rw [show rb.grow.tail = 0 from by rw [hgd]]
  rw [Nat.zero_add, Nat.mod_eq_of_lt (by omega)]
  rw [show rb.grow.data = rb.data.drop rb.tail ++ rb.data.take rb.head ++
    List.replicate rb.data.length none from by rw [hgd]]
  rw [List.getElem?_append_left (by rw [hlenord]; omega)]
  by_cases hcase : i < rb.data.length - rb.tail
  · rw [List.getElem?_append_left (by rw [List.length_drop]; omega)]
    rw [getElem?_drop_add, Nat.mod_eq_of_lt (by omega)]
  · rw [List.getElem?_append_right (by rw [List.length_drop]; omega)]
    rw [List.length_drop]
    rw [List.getElem?_take_of_lt (by rw [hht]; omega)]
    rw [show (rb.tail + i) % rb.data.length = i - (rb.data.length - rb.tail) from by
      rw [Nat.mod_eq_sub_mod (by omega), Nat.mod_eq_of_lt (by omega)]
      omega]

theorem addStore_spec (rb : RingBuffer) (p : CapturedPacket) (s : Int)
    (h0 : 0 < rb.data.length) (hclt : rb.count < rb.data.length)
    (hheadEq : rb.head = (rb.tail + rb.count) % rb.data.length) :
    (storeStep rb p s).data.length = rb.data.length ∧
    (storeStep rb p s).head = (rb.tail + (rb.count + 1)) % rb.data.length ∧
    (∀ i, i < rb.count → (storeStep rb p s).slotAt i = rb.slotAt i) ∧
    (storeStep rb p s).slotAt rb.count = some p := by
  have hlen : (rb.data.set rb.head (some p)).length = rb.data.length :=
    List.length_set rb.data rb.head (some p)
  have hhlt : rb.head < rb.data.length := by
    rw [hheadEq]
    exact Nat.mod_lt _ h0
  have hne : ∀ i, i < rb.count → rb.head ≠ (rb.tail + i) % rb.data.length := by
    intro i hi heq
    rw [hheadEq] at heq
    have hmeq : i ≡ rb.count [MOD rb.data.length] :=
      Nat.ModEq.add_left_cancel' rb.tail heq.symm
    rw [Nat.ModEq, Nat.mod_eq_of_lt (by omega), Nat.mod_eq_of_lt hclt] at hmeq
    omega
  refine ⟨hlen, ?_, ?_, ?_⟩
  · show (rb.head + 1) % rb.data.length = _
    rw [hheadEq, Nat.mod_add_mod, Nat.add_assoc]
  · intro i hi
    rw [RingBuffer.slotAt, RingBuffer.slotAt]
    show ((rb.data.set rb.head (some p))[(rb.tail + i) %
      (rb.data.set rb.head (some p)).length]?).getD none = _
    rw [hlen, List.getElem?_set_ne (hne i hi)]
  · rw [RingBuffer.slotAt]
    show ((rb.data.set rb.head (some p))[(rb.tail + rb.count) %
      (rb.data.set rb.head (some p)).length]?).getD none = _
    rw [hlen, ← hheadEq, List.getElem?_set_self hhlt]
    rfl

theorem addPipeline_spec (rb : RingBuffer) (P : CapturedPacket) (S : Int)
    (h : rb.WF) (hS_le : S ≤ rb.maxSize) (hS_len : (P.rawData.length : Int) = S)
    (rb2 : RingBuffer)
    (hrb2 : rb2 = (if (rb.evictOld S).count = (rb.evictOld S).data.length
      then (rb.evictOld S).grow else rb.evictOld S)) :
    (storeStep rb2 P S).WF ∧
    (storeStep rb2 P S).maxSize = rb.maxSize ∧
    (storeStep rb2 P S).count = rb2.count + 1 ∧
    (storeStep rb2 P S).slotAt rb2.count = some P ∧
    (S = rb.maxSize → (storeStep rb2 P S).currentSize = rb.maxSize) := by
  obtain ⟨h0, ht, hcl, hhead, hmax, hslots, hsize, hbound⟩ := (RingBuffer.wf_iff rb).mp h
  obtain ⟨k, hk, e_data, e_head, e_max, e_count, e_tail, e_slots, e_size, e_post⟩ :=
    evictOld_spec rb.count rb S le_rfl h0 ht hcl hslots hsize
  have hE_len : (rb.evictOld S).data.length = rb.data.length := by rw [e_data]
  have hE_tail : (rb.evictOld S).tail < (rb.evictOld S).data.length := by
    rw [e_tail, hE_len]
    exact Nat.mod_lt _ h0
  have hE_headEq : (rb.evictOld S).head =
      ((rb.evictOld S).tail + (rb.evictOld S).count) % (rb.evictOld S).data.length := by
    rw [e_head, e_tail, e_count, hE_len, hhead, Nat.mod_add_mod]
    congr 1
    omega
  have hE_countle : (rb.evictOld S).count ≤ (rb.evictOld S).data.length := by
    rw [e_count, hE_len]
    omega
  have hE_slots : ∀ i, i < (rb.evictOld S).count →
      ((rb.evictOld S).slotAt i).isSome = true := by
    intro i hi
    rw [e_slots i]
    rw [e_count] at hi
    exact hslots (k + i) (by omega)
  have hA : 0 < rb2.data.length ∧ rb2.count < rb2.data.length ∧
      rb2.tail < rb2.data.length ∧
      rb2.head = (rb2.tail + rb2.count) % rb2.data.length ∧
      (∀ i, i < rb2.count → (rb2.slotAt i).isSome = true) ∧
      rb2.currentSize = (rb2.usedBytes : Int) ∧
      rb2.maxSize = rb.maxSize ∧
      ¬(rb2.maxSize < rb2.currentSize + S ∧ 0 < rb2.count) := by
    rw [hrb2]
    by_cases hgrow : (rb.evictOld S).count = (rb.evictOld S).data.length
    · rw [if_pos hgrow]
      obtain ⟨g_len, g_tail, g_head, g_count, g_max, g_size, g_slots⟩ :=
        grow_spec (rb.evictOld S) (by rw [hE_len]; exact h0) hE_tail hgrow hE_headEq
      have hused : (rb.evictOld S).grow.usedBytes = (rb.evictOld S).usedBytes := by
        rw [RingBuffer.usedBytes, RingBuffer.usedBytes, g_count]
        refine congrArg List.sum (List.map_congr_left ?_)
        intro i hi
        rw [List.mem_range] at hi
        rw [g_slots i hi]
      refine ⟨?_, ?_, ?_, ?_, ?_, ?_, ?_, ?_⟩
      · rw [g_len]
        rw [hE_len]
        omega
      · rw [g_count, g_len]
        rw [hE_len] at hgrow ⊢
        omega
      · rw [g_tail, g_len]
        rw [hE_len]
        omega
      · rw [g_head, g_tail, g_count, g_len, Nat.zero_add,
          Nat.mod_eq_of_lt (by rw [hE_len] at hgrow ⊢; omega)]
      · intro i hi
        rw [g_count] at hi
        rw [g_slots i hi]
        exact hE_slots i hi
      · rw [g_size, hused]
        exact e_size
      · rw [g_max, e_max]
      · rw [g_max, g_size, g_count]
        exact e_post
    · rw [if_neg hgrow]
      exact ⟨by rw [hE_len]; exact h0, Nat.lt_of_le_of_ne hE_countle hgrow, hE_tail,
        hE_headEq, hE_slots, e_size, e_max, e_post⟩
  obtain ⟨A1, A2, A3, A4, A5, A6, A7, A8⟩ := hA
  obtain ⟨s_len, s_head, s_slots, s_new⟩ := addStore_spec rb2 P S A1 A2 A4
  have hcur2_nonneg : 0 ≤ rb2.currentSize := by
    rw [A6]
    positivity
  have hcur0 : rb2.count = 0 → rb2.currentSize = 0 := by
    intro hc
    rw [A6, usedBytes_zero rb2 hc]
    rfl
  have hLused : (storeStep rb2 P S).usedBytes = rb2.usedBytes + P.rawData.length := by
    rw [RingBuffer.usedBytes]
    rw [show (storeStep rb2 P S).count = rb2.count + 1 from rfl]
    rw [List.range_succ, List.map_append, List.sum_append]
    rw [List.map_cons, List.map_nil, List.sum_cons, List.sum_nil]
    rw [s_new]
    rw [RingBuffer.usedBytes]
    have hmc : (List.range rb2.count).map
        (fun i => optSize ((storeStep rb2 P S).slotAt i)) =
        (List.range rb2.count).map (fun i => optSize (rb2.slotAt i)) := by
      refine List.map_congr_left ?_
      intro i hi
      rw [List.mem_range] at hi
      rw [s_slots i hi]
    rw [hmc]
    rfl
  have hLcur : (storeStep rb2 P S).currentSize = rb2.currentSize + S := rfl
  have hLbound : (storeStep rb2 P S).currentSize ≤ rb.maxSize := by
    rw [hLcur]
    by_cases hc : 0 < rb2.count
    · have := A8
      rw [A7] at this
      omega
    · have h2 := hcur0 (by omega)
      omega
  refine ⟨?_, A7, rfl, s_new, ?_⟩
  · rw [RingBuffer.wf_iff]
    refine ⟨?_, ?_, ?_, ?_, ?_, ?_, ?_, ?_⟩
    · rw [s_len]
      exact A1
    · rw [show (storeStep rb2 P S).tail = rb2.tail from rfl, s_len]
      exact A3
    · rw [show (storeStep rb2 P S).count = rb2.count + 1 from rfl, s_len]
      omega
    · rw [show (storeStep rb2 P S).tail = rb2.tail from rfl,
        show (storeStep rb2 P S).count = rb2.count + 1 from rfl, s_len]
      exact s_head
    · rw [show (storeStep rb2 P S).maxSize = rb2.maxSize from rfl, A7]
      exact hmax
    · intro i hi
      rw [show (storeStep rb2 P S).count = rb2.count + 1 from rfl] at hi
      by_cases hic : i < rb2.count
      · rw [s_slots i hic]
        exact A5 i hic
      · rw [show i = rb2.count from by omega, s_new]
        rfl
    · rw [hLcur, hLused]
      rw [A6]
      push_cast
      omega
    · rw [show (storeStep rb2 P S).maxSize = rb2.maxSize from rfl, A7]
      exact hLbound
  · intro hSmax
    rw [hLcur]
    by_cases hc : 0 < rb2.count
    · have := A8
      rw [A7, hSmax] at this
      omega
    · have h2 := hcur0 (by omega)
      omega

theorem Add_WF (rb : RingBuffer) (p : CapturedPacket) (h : rb.WF) :
    (rb.Add p).WF ∧ (rb.Add p).maxSize = rb.maxSize ∧ 0 < (rb.Add p).count ∧
    (rb.Add p).slotAt ((rb.Add p).count - 1) =
      some (if rb.maxSize < (p.rawData.length : Int)
        then { p with rawData := p.rawData.take rb.maxSize.toNat } else p) ∧
    (rb.maxSize ≤ (p.rawData.length : Int) → (rb.Add p).currentSize = rb.maxSize) := by
  have hmax : 0 < rb.maxSize := ((RingBuffer.wf_iff rb).mp h).2.2.2.2.1
  by_cases hbig : rb.maxSize < (p.rawData.length : Int)
  · have hS_len : (({ p with rawData := p.rawData.take rb.maxSize.toNat } :
        CapturedPacket).rawData.length : Int) = rb.maxSize := by
      show ((p.rawData.take rb.maxSize.toNat).length : Int) = rb.maxSize
      rw [List.length_take]
      rw [Nat.min_eq_left (by omega)]
      omega
    have hAdd : rb.Add p = storeStep
        (if (rb.evictOld rb.maxSize).count = (rb.evictOld rb.maxSize).data.length
          then (rb.evictOld rb.maxSize).grow else rb.evictOld rb.maxSize)
        { p with rawData := p.rawData.take rb.maxSize.toNat } rb.maxSize := by
      simp only [RingBuffer.Add, if_pos hbig]
    obtain ⟨w1, w2, w3, w4, w5⟩ := addPipeline_spec rb
      { p with rawData := p.rawData.take rb.maxSize.toNat } rb.maxSize h le_rfl
      hS_len _ rfl
    rw [hAdd, if_pos hbig]
    refine ⟨w1, w2, by rw [w3]; omega, ?_, fun _ => w5 rfl⟩
    rw [w3]
    rw [Nat.add_sub_cancel]
    exact w4
  · have hAdd : rb.Add p = storeStep
        (if (rb.evictOld (p.rawData.length : Int)).count =
            (rb.evictOld (p.rawData.length : Int)).data.length
          then (rb.evictOld (p.rawData.length : Int)).grow
          else rb.evictOld (p.rawData.length : Int))
        p (p.rawData.length : Int) := by
      simp only [RingBuffer.Add, if_neg hbig]
    obtain ⟨w1, w2, w3, w4, w5⟩ := addPipeline_spec rb p (p.rawData.length : Int) h
      (by omega) rfl _ rfl
    rw [hAdd, if_neg hbig]
    refine ⟨w1, w2, by rw [w3]; omega, ?_, fun hge => w5 (by omega)⟩
    rw [w3, Nat.add_sub_cancel]
    exact w4

theorem GetAll_eq (rb : RingBuffer) (h : rb.WF) :
    rb.GetAll = (List.range rb.count).map rb.slotAt := by
  obtain ⟨h0, ht, hcl, hhead, _, _, _, _⟩ := (RingBuffer.wf_iff rb).mp h
  by_cases hc : rb.count = 0
  · rw [RingBuffer.GetAll, if_pos hc, hc]
    rfl
  · rw [RingBuffer.GetAll, if_neg hc]
    by_cases hw : rb.tail + rb.count < rb.data.length
    · have hhead2 : rb.head = rb.tail + rb.count := by
        rw [hhead, Nat.mod_eq_of_lt hw]
      have hlt : rb.tail < rb.head := by omega
      have hsrclen : ((rb.data.drop rb.tail).take (rb.head - rb.tail)).length =
          rb.count := by
        rw [List.length_take, List.length_drop]
        omega
      simp only [if_pos hlt]
      rw [List.take_of_length_le (Nat.le_of_eq hsrclen), hsrclen, Nat.min_self,
        Nat.sub_self, List.replicate_zero, List.append_nil]
      refine List.ext_getElem? ?_
      intro i
      by_cases hi : i < rb.count
      · rw [List.getElem?_take_of_lt (by omega), getElem?_drop_add]
        rw [List.getElem?_map, List.getElem?_range hi, Option.map_some']
        rw [RingBuffer.slotAt, Nat.mod_eq_of_lt (by omega)]
        rw [List.getElem?_eq_getElem (by omega : rb.tail + i < rb.data.length)]
        rfl
      · rw [List.getElem?_eq_none (by omega : ((rb.data.drop rb.tail).take
          (rb.head - rb.tail)).length ≤ i)]
        rw [List.getElem?_eq_none (by
          rw [List.length_map, List.length_range]
          omega)]
    · have hhead2 : rb.head = rb.tail + rb.count - rb.data.length := by
        rw [hhead, Nat.mod_eq_sub_mod (by omega), Nat.mod_eq_of_lt (by omega)]
      have hnlt : ¬ rb.tail < rb.head := by omega
      have hsrclen : (rb.data.drop rb.tail ++ rb.data.take rb.head).length =
          rb.count := by
        rw [List.length_append, List.length_drop, List.length_take]
        omega
      simp only [if_neg hnlt]
      rw [List.take_of_length_le (Nat.le_of_eq hsrclen), hsrclen, Nat.min_self,
        Nat.sub_self, List.replicate_zero, List.append_nil]
      refine List.ext_getElem? ?_
      intro i
      by_cases hi : i < rb.count
      · rw [List.getElem?_map, List.getElem?_range hi, Option.map_some']
        by_cases hil : i < rb.data.length - rb.tail
        · rw [List.getElem?_append_left (by rw [List.length_drop]; omega)]
          rw [getElem?_drop_add]
          rw [RingBuffer.slotAt, Nat.mod_eq_of_lt (by omega)]
          rw [List.getElem?_eq_getElem (by omega : rb.tail + i < rb.data.length)]
          rfl
        · rw [List.getElem?_append_right (by rw [List.length_drop]; omega)]
          rw [List.length_drop]
          rw [List.getElem?_take_of_lt (by omega)]
          rw [RingBuffer.slotAt]
          rw [show (rb.tail + i) % rb.data.length =
              i - (rb.data.length - rb.tail) from by
            rw [Nat.mod_eq_sub_mod (by omega), Nat.mod_eq_of_lt (by omega)]
            omega]
          rw [List.getElem?_eq_getElem
            (by omega : i - (rb.data.length - rb.tail) < rb.data.length)]
          rfl
      · rw [List.getElem?_eq_none (by omega :
          (rb.data.drop rb.tail ++ rb.data.take rb.head).length ≤ i)]
        rw [List.getElem?_eq_none (by
          rw [List.length_map, List.length_range]
          omega)]

theorem bytesRetained_eq_currentSize (rb : RingBuffer) (h : rb.WF) :
    (rb.bytesRetained : Int) = rb.currentSize := by
  have hu : rb.bytesRetained = rb.usedBytes := by
    rw [RingBuffer.bytesRetained, GetAll_eq rb h, List.map_map, RingBuffer.usedBytes]
    rfl
  have hsize := ((RingBuffer.wf_iff rb).mp h).2.2.2.2.2.2.1
  rw [hu, hsize]

theorem addAll_WF (ps : List CapturedPacket) : ∀ rb : RingBuffer, rb.WF →
    (rb.addAll ps).WF ∧ (rb.addAll ps).maxSize = rb.maxSize := by
  induction ps with
  | nil => exact fun rb h => ⟨h, rfl⟩
  | cons p ps ih =>
    intro rb h
    obtain ⟨w1, w2, _, _, _⟩ := Add_WF rb p h
    obtain ⟨i1, i2⟩ := ih (rb.Add p) w1
    rw [RingBuffer.addAll, List.foldl_cons]
    exact ⟨i1, by rw [show ((rb.Add p).addAll ps) =
      List.foldl RingBuffer.Add (rb.Add p) ps from rfl] at i2; rw [i2, w2]⟩

theorem NewRingBuffer_WF (B : Int) (hB : 0 < B) :
    (NewRingBuffer B).WF ∧ (NewRingBuffer B).maxSize = B := by
  have hN : NewRingBuffer B =
      { data := List.replicate 1000 none
        maxSize := B
        currentSize := 0
        head := 0
        tail := 0
        count := 0 } := by
    simp only [NewRingBuffer]
    rw [if_neg (by omega)]
  refine ⟨?_, by rw [hN]⟩
  rw [hN, RingBuffer.wf_iff]
  refine ⟨?_, ?_, ?_, ?_, hB, ?_, ?_, ?_⟩
  · show 0 < (List.replicate 1000 (none : Option CapturedPacket)).length
    rw [List.length_replicate]
    omega
  · show 0 < (List.replicate 1000 (none : Option CapturedPacket)).length
    rw [List.length_replicate]
    omega
  · exact Nat.zero_le _
  · show (0 : Nat) = (0 + 0) % (List.replicate 1000 (none : Option CapturedPacket)).length
    rw [List.length_replicate]
  · intro i hi
    exact absurd hi (Nat.not_lt_zero i)
  · show (0 : Int) = ((RingBuffer.usedBytes _ : Nat) : Int)
    rw [RingBuffer.usedBytes]
    rfl
  · show (0 : Int) ≤ B
    omega

/-- Claim C1: starting from a fresh buffer with byte budget `B > 0`,
after every sequence of `Add` calls the total raw-byte size of the
retained packets (as returned by `GetAll`) is at most `B`; and adding a
packet whose raw size is at least `B` evicts enough to make the total
exactly `B`, the stored packet being truncated to its first `B` bytes
before insertion. -/
theorem buffer_budget_invariant (B : Int) (hB : 0 < B) (ps : List CapturedPacket) :
    (((NewRingBuffer B).addAll ps).bytesRetained : Int) ≤ B ∧
    ∀ p : CapturedPacket, B ≤ (p.rawData.length : Int) →
      ((((NewRingBuffer B).addAll ps).Add p).bytesRetained : Int) = B ∧
      (((NewRingBuffer B).addAll ps).Add p).GetAll.getLast? =
        some (some { p with rawData := p.rawData.take B.toNat }) := by
  obtain ⟨hNw, hNm⟩ := NewRingBuffer_WF B hB
  obtain ⟨hw, hm⟩ := addAll_WF ps (NewRingBuffer B) hNw
  have hsm : ((NewRingBuffer B).addAll ps).maxSize = B := by rw [hm, hNm]
  constructor
  · rw [bytesRetained_eq_currentSize _ hw]
    have hbnd := ((RingBuffer.wf_iff _).mp hw).2.2.2.2.2.2.2
    omega
  · intro p hp
    obtain ⟨a1, a2, a3, a4, a5⟩ := Add_WF ((NewRingBuffer B).addAll ps) p hw
    have hcur : (((NewRingBuffer B).addAll ps).Add p).currentSize = B := by
      rw [a5 (by omega), hsm]
    refine ⟨by rw [bytesRetained_eq_currentSize _ a1, hcur], ?_⟩
    rw [GetAll_eq _ a1]
    rw [show (((NewRingBuffer B).addAll ps).Add p).count =
      ((((NewRingBuffer B).addAll ps).Add p).count - 1) + 1 from by omega]
    rw [List.range_succ, List.map_append, List.map_cons, List.map_nil,
      List.getLast?_concat]
    rw [a4]
    by_cases hlt : ((NewRingBuffer B).addAll ps).maxSize < (p.rawData.length : Int)
    · rw [if_pos hlt, hsm]
    · rw [if_neg hlt]
      rw [show B.toNat = p.rawData.length from by omega, List.take_length]

theorem Add_after_evict (rb : RingBuffer) (p : CapturedPacket)
    (hfit : ¬ rb.maxSize < (p.rawData.length : Int))
    (hnogrow : (rb.evictOld (p.rawData.length : Int)).count ≠
      (rb.evictOld (p.rawData.length : Int)).data.length) :
    rb.Add p = storeStep (rb.evictOld (p.rawData.length : Int)) p
      (p.rawData.length : Int) := by
  simp only [RingBuffer.Add]
  rw [if_neg hfit, if_neg hnogrow]

theorem evictOld_one (rb : RingBuffer) (s : Int) (q : CapturedPacket)
    (hq : rb.data[rb.tail]? = some (some q))
    (hc : rb.maxSize < rb.currentSize + s ∧ 0 < rb.count)
    (hstop : ¬ (rb.maxSize < (rb.currentSize - (q.rawData.length : Int)) + s ∧
      0 < rb.count - 1)) :
    rb.evictOld s =
      { rb with
        currentSize := rb.currentSize - (q.rawData.length : Int)
        tail := (rb.tail + 1) % rb.data.length
        count := rb.count - 1 } := by
  have h1 : rb.evictOld s = RingBuffer.evictOld
      { rb with
        currentSize := rb.currentSize - (q.rawData.length : Int)
        tail := (rb.tail + 1) % rb.data.length
        count := rb.count - 1 } s := by
    conv_lhs => rw [RingBuffer.evictOld]
    rw [dif_pos hc, hq]
  rw [h1, RingBuffer.evictOld]
  exact dif_neg hstop

/-- Claim C2: FIFO eviction.  With budget `2 * X` and three packets of
raw size `X > 0` added in order, the third `Add` evicts exactly the first
(oldest) packet, and `GetAll` returns the second and third packets in
insertion order. -/
theorem fifo_eviction (X : Nat) (hX : 0 < X) (p1 p2 p3 : CapturedPacket)
    (h1 : p1.rawData.length = X) (h2 : p2.rawData.length = X)
    (h3 : p3.rawData.length = X) :
    ((((NewRingBuffer (2 * (X : Int))).Add p1).Add p2).Add p3).GetAll =
      [some p2, some p3] := by
  have h0 : NewRingBuffer (2 * (X : Int)) =
      (⟨List.replicate 1000 none, 2 * (X : Int), 0, 0, 0, 0⟩ : RingBuffer) := by
    simp only [NewRingBuffer]
    rw [if_neg (by omega)]
  rw [h0]
  set b0 : RingBuffer := ⟨List.replicate 1000 none, 2 * (X : Int), 0, 0, 0, 0⟩
    with hb0
  have e1 : b0.evictOld (p1.rawData.length : Int) = b0 := by
    rw [RingBuffer.evictOld]
    refine dif_neg ?_
    rintro ⟨-, hcc⟩
    exact absurd hcc (by omega : ¬ (0 : Nat) < 0)
  rw [Add_after_evict b0 p1
    (by show ¬ (2 * (X : Int) < (p1.rawData.length : Int)); rw [h1]; omega)
    (by rw [e1]; show (0 : Nat) ≠ 1000; omega), e1]
  set b1 : RingBuffer := storeStep b0 p1 (p1.rawData.length : Int) with hb1
  have e2 : b1.evictOld (p2.rawData.length : Int) = b1 := by
    rw [RingBuffer.evictOld]
    refine dif_neg ?_
    rintro ⟨hlt, -⟩
    rw [show b1.maxSize = 2 * (X : Int) from rfl,
      show b1.currentSize = 0 + (p1.rawData.length : Int) from rfl, h1, h2] at hlt
    omega
  rw [Add_after_evict b1 p2
    (by show ¬ (2 * (X : Int) < (p2.rawData.length : Int)); rw [h2]; omega)
    (by rw [e2]; show (1 : Nat) ≠ 1000; omega), e2]
  set b2 : RingBuffer := storeStep b1 p2 (p2.rawData.length : Int) with hb2
  have e3 : b2.evictOld (p3.rawData.length : Int) =
      { b2 with
        currentSize := b2.currentSize - (p1.rawData.length : Int)
        tail := (b2.tail + 1) % b2.data.length
        count := b2.count - 1 } := by
    refine evictOld_one b2 (p3.rawData.length : Int) p1 rfl
      ⟨?_, (by omega : (0 : Nat) < 2)⟩ ?_
    · rw [show b2.maxSize = 2 * (X : Int) from rfl,
        show b2.currentSize = 0 + (p1.rawData.length : Int) +
          (p2.rawData.length : Int) from rfl, h1, h2, h3]
      omega
    · rintro ⟨hlt, -⟩
      rw [show b2.maxSize = 2 * (X : Int) from rfl,
        show b2.currentSize = 0 + (p1.rawData.length : Int) +
          (p2.rawData.length : Int) from rfl, h1, h2, h3] at hlt
      omega
  rw [Add_after_evict b2 p3
    (by show ¬ (2 * (X : Int) < (p3.rawData.length : Int)); rw [h3]; omega)
    (by rw [e3]; show (1 : Nat) ≠ 1000; omega), e3]
  rfl

/-- Claim C8: for every well-formed buffer state, `GetStats` returns the
retained packet count (the length of the `GetAll` snapshot), the total
retained raw bytes, and the usage percentage `100 * bytes / budget` (0
when the budget is 0 — unreachable for constructed buffers); being a pure
function of the state, it does not modify the buffer.  The Go `float64`
division is modelled exactly over `ℚ`. -/
theorem getStats_spec (rb : RingBuffer) (h : rb.WF) :
    rb.GetStats = (rb.GetAll.length, ((rb.bytesRetained : Int),
      if rb.maxSize = 0 then 0
      else (rb.bytesRetained : ℚ) * 100 / (rb.maxSize : ℚ))) := by
  have h1 : rb.GetAll.length = rb.count := by
    rw [GetAll_eq rb h, List.length_map, List.length_range]
  have h2 : (rb.bytesRetained : Int) = rb.currentSize :=
    bytesRetained_eq_currentSize rb h
  have h3 : ((rb.bytesRetained : Nat) : ℚ) = (rb.currentSize : ℚ) := by
    exact_mod_cast h2
  rw [RingBuffer.GetStats, RingBuffer.getUsagePercentLocked, h1, h2, h3]

/-! ### Witnesses -/

theorem buffer_budget_invariant_witness :
    (0 : Int) < 3 ∧
    (3 : Int) ≤ ((⟨0, "w", 5, "", [], "", [65, 66, 67, 68, 69]⟩ :
      CapturedPacket).rawData.length : Int) ∧
    ((((NewRingBuffer 3).addAll []).Add
      (⟨0, "w", 5, "", [], "", [65, 66, 67, 68, 69]⟩ :
        CapturedPacket)).bytesRetained : Int) = 3 :=
  ⟨by decide, by decide,
    ((buffer_budget_invariant 3 (by decide) []).2
      (⟨0, "w", 5, "", [], "", [65, 66, 67, 68, 69]⟩ : CapturedPacket)
      (by decide)).1⟩

theorem fifo_eviction_witness :
    0 < 1 ∧
    ((((NewRingBuffer (2 * ((1 : Nat) : Int))).Add
      (⟨0, "a", 1, "", [], "", [65]⟩ : CapturedPacket)).Add
      (⟨1, "b", 1, "", [], "", [66]⟩ : CapturedPacket)).Add
      (⟨2, "c", 1, "", [], "", [67]⟩ : CapturedPacket)).GetAll =
      [some (⟨1, "b", 1, "", [], "", [66]⟩ : CapturedPacket),
       some (⟨2, "c", 1, "", [], "", [67]⟩ : CapturedPacket)] :=
  ⟨by decide,
    fifo_eviction 1 (by decide) _ _ _ (by decide) (by decide) (by decide)⟩

theorem StartProxy_cases_witness :
    findProxy [] 8080 = none ∧
    StartProxy [] 8080 "localhost" 9090 1024 (.ok ()) =
      (.ok (), [] ++ [(8080,
        (⟨8080, "localhost", 9090, NewRingBuffer 1024, 0, 0⟩ :
          ProxyInstanceM))]) :=
  ⟨rfl, (StartProxy_cases [] 8080 "localhost" 9090 1024 (.ok ())).2.2.1 rfl⟩

theorem StopProxy_cases_witness :
    findProxy [(8080, (⟨8080, "localhost", 9090, NewRingBuffer 1024, 7, 0⟩ :
        ProxyInstanceM))] 8080 =
      some (⟨8080, "localhost", 9090, NewRingBuffer 1024, 7, 0⟩ :
        ProxyInstanceM) ∧
    StopProxy [(8080, (⟨8080, "localhost", 9090, NewRingBuffer 1024, 7, 0⟩ :
        ProxyInstanceM))] 8080 =
      (.ok ((⟨8080, "localhost", 9090, NewRingBuffer 1024, 7, 0⟩ :
        ProxyInstanceM)).statsBytesCaptured,
      eraseProxy [(8080, (⟨8080, "localhost", 9090, NewRingBuffer 1024, 7, 0⟩ :
        ProxyInstanceM))] 8080) :=
  ⟨rfl, ((StopProxy_cases [(8080,
      (⟨8080, "localhost", 9090, NewRingBuffer 1024, 7, 0⟩ :
        ProxyInstanceM))] 8080).2 _ rfl).1⟩

theorem getStats_spec_witness :
    (NewRingBuffer 100).WF ∧
    (NewRingBuffer 100).GetStats = ((NewRingBuffer 100).GetAll.length,
      (((NewRingBuffer 100).bytesRetained : Int),
      if (NewRingBuffer 100).maxSize = 0 then 0
      else ((NewRingBuffer 100).bytesRetained : ℚ) * 100 /
        ((NewRingBuffer 100).maxSize : ℚ))) :=
  ⟨by decide, getStats_spec (NewRingBuffer 100) (by decide)⟩

theorem toolHandler_error_channels_witness :
    (goGetInt [] "listen_port").2 = false ∧
    StartProxyHandlerExec [] (.amap []) (.ok ()) =
      (.transportError "listen_port is required", []) :=
  ⟨rfl, ((toolHandler_error_channels [] (.ok ())).2.2.1 [] rfl).1⟩

theorem captureLimit_default_witness :
    (-5 : Int) ≤ 0 ∧
    (NewRingBuffer (-5)).maxSize = 10485760 ∧
    (goGetInt [("listen_port", .vint 8080), ("forward_port", .vint 9090),
      ("capture_limit", .vint (-5))] "capture_limit").1 ≤ 0 ∧
    (NewRingBuffer 10485760).maxSize = 10485760 :=
  ⟨by decide,
    captureLimit_default_substitution.1 (-5) (by decide),
    by decide,
    (captureLimit_default_substitution.2.2 []
      [("listen_port", .vint 8080), ("forward_port", .vint 9090),
        ("capture_limit", .vint (-5))] rfl rfl (by decide) rfl).2⟩
